import Mathlib

/-!
Verification of the column/tag micro-engine of `django_dynamic_tables`
(`src/dynamic_tables/tables.py`), as a shallow embedding in Lean 4.

Strings are modelled as `List Char`.  Python string methods used by the
source (`str.replace`, `str.replace(.., 1)`, `str.index`, `str.split`,
`str.startswith`, slicing, `str.title`) are embedded as executable list
functions below; each carries a comment naming the Python method it models.
Brace characters inside string literals are written with the escapes
`\x7b` and `\x7d`.
-/

namespace DynTab

/-- Shorthand turning a string literal into the `List Char` representation
used throughout this development. -/
def chars (s : String) : List Char := s.data

/-- When `pat` is a prefix of `s`, return the remainder of `s` after `pat`;
otherwise `none`. -/
def dropMatched : List Char → List Char → Option (List Char)
  | [], s => some s
  | _ :: _, [] => none
  | p :: ps, c :: cs => if p == c then dropMatched ps cs else none

/-- Model of Python `s.startswith(pat)` (first argument is the pattern). -/
def startsWithL : List Char → List Char → Bool
  | [], _ => true
  | _ :: _, [] => false
  | p :: ps, c :: cs => p == c && startsWithL ps cs

/-- Fuel-indexed worker for `pyReplace`; the fuel starts at the subject
length and bounds the recursion (every step consumes at least one subject
character, so the `0` case is never reached from `pyReplace`). -/
def replaceAllAux (pat repl : List Char) : Nat → List Char → List Char
  | _, [] => []
  | 0, s => s
  | Nat.succ fl, c :: rest =>
    match dropMatched pat (c :: rest) with
    | some tail =>
      match pat with
      | [] => c :: replaceAllAux pat repl fl rest
      | _ :: _ => repl ++ replaceAllAux pat repl fl tail
    | none => c :: replaceAllAux pat repl fl rest

/-- Model of Python `s.replace(pat, repl)`: replace every non-overlapping
occurrence, scanning left to right.  Every pattern used by the source is
nonempty, and for nonempty patterns this agrees with Python. -/
def pyReplace (pat repl s : List Char) : List Char :=
  replaceAllAux pat repl s.length s

/-- Model of Python `s.replace(pat, repl, 1)`: replace only the first
occurrence. -/
def pyReplaceFirst (pat repl : List Char) : List Char → List Char
  | [] => (match dropMatched pat [] with
           | some tail => repl ++ tail
           | none => [])
  | c :: rest =>
    match dropMatched pat (c :: rest) with
    | some tail => repl ++ tail
    | none => c :: pyReplaceFirst pat repl rest

/-- Index of the first occurrence of `pat` in `s`, if any; models Python
`s.index(pat)` with `none` for the raised `ValueError`. -/
def indexOfAux (pat : List Char) : List Char → Option Nat
  | [] => (match dropMatched pat [] with
           | some _ => some 0
           | none => none)
  | c :: rest =>
    match dropMatched pat (c :: rest) with
    | some _ => some 0
    | none => (indexOfAux pat rest).map (· + 1)

/-- Model of Python `s.split(pat, 1)` restricted to the case where `pat`
occurs in `s`: the text before the first occurrence and the text after it.
Returns `none` when `pat` does not occur, which is exactly the test
`pat in s` guarding the split in the source. -/
def splitOnceSep (pat : List Char) : List Char → Option (List Char × List Char)
  | [] => none
  | c :: rest =>
    match dropMatched pat (c :: rest) with
    | some tail => some ([], tail)
    | none => (splitOnceSep pat rest).map (fun pr => (c :: pr.1, pr.2))

/-- Model of Python `s.split(sep)` for a one-character separator: always
returns at least one (possibly empty) piece. -/
def pySplitChar (sep : Char) : List Char → List (List Char)
  | [] => [[]]
  | c :: rest =>
    if c == sep then [] :: pySplitChar sep rest
    else
      match pySplitChar sep rest with
      | [] => [[c]]
      | g :: gs => (c :: g) :: gs

/-- Worker for `pyTitle`; the flag records whether the previous character
was cased (ASCII-alphabetic in this model). -/
def pyTitleAux : Bool → List Char → List Char
  | _, [] => []
  | prevAlpha, c :: rest =>
    if c.isAlpha then
      (if prevAlpha then c.toLower else c.toUpper) :: pyTitleAux true rest
    else c :: pyTitleAux false rest

/-- Model of Python `s.title()`: each maximal run of cased characters is
capitalised on its first character and lower-cased on the rest. -/
def pyTitle (s : List Char) : List Char := pyTitleAux false s

/-- Model of Python `s.replace("_", " ")`, used when deriving display
names. -/
def underscoreToSpace (s : List Char) : List Char :=
  s.map (fun c => if c == '_' then ' ' else c)

/-- Dynamic (Python) values that flow through the tag interpreter: the row
object, cell values and attribute values.  `vfn r` models a zero-argument
callable returning `r`; `vobj` is an object with an attribute table; `vdict`
a mapping.  String forms of non-primitive values are abstracted (the claims
never stringify them). -/
inductive PyVal where
  | vnone : PyVal
  | vbool : Bool → PyVal
  | vint : Int → PyVal
  | vstr : List Char → PyVal
  | vfn : PyVal → PyVal
  | vobj : List (List Char × PyVal) → PyVal
  | vdict : List (List Char × PyVal) → PyVal

/-- Python truthiness (`bool(value)`) for the modelled values. -/
def truthy : PyVal → Bool
  | .vnone => false
  | .vbool b => b
  | .vint n => decide (n ≠ 0)
  | .vstr s => !s.isEmpty
  | .vfn _ => true
  | .vobj _ => true
  | .vdict d => !d.isEmpty

/-- Python `str(value)` for the modelled values (object/dict/callable
representations are abstracted; the source only stringifies substitution
values). -/
def pyStr : PyVal → List Char
  | .vnone => chars "None"
  | .vbool true => chars "True"
  | .vbool false => chars "False"
  | .vint n => (toString n).data
  | .vstr s => s
  | .vfn _ => chars "<callable>"
  | .vobj _ => chars "<object>"
  | .vdict _ => chars "<dict>"

/-- Model of `if value is None: value = ""` (tables.py lines 129-130). -/
def coerceNone : PyVal → PyVal
  | .vnone => .vstr []
  | v => v

/-- Model of `if callable(value): value = value()` (tables.py lines
121-122). -/
def invokeCallable : PyVal → PyVal
  | .vfn r => r
  | v => v

/-- First-match association lookup over an attribute or key table. -/
def lookupPairs (key : List Char) : List (List Char × PyVal) → Option PyVal
  | [] => none
  | kv :: rest => if kv.1 == key then some kv.2 else lookupPairs key rest

/-- Model of the `item.<attr>` resolution in `parse_tag` (tables.py lines
116-120): mapping lookup when the row is a dict and the key exists,
otherwise `getattr`; `none` models the raised exception.  Values other
than objects and dicts expose no attributes in this model. -/
def getItemValue (obj : PyVal) (key : List Char) : Option PyVal :=
  match obj with
  | .vdict entries => lookupPairs key entries
  | .vobj attrs => lookupPairs key attrs
  | _ => none

/-- Model of the value-resolution `try` block of `parse_tag` (tables.py
lines 115-132): `item.<attr>` with callable auto-invocation, `item`,
`row_idx`, fallback to the cell value; every failure and every `None`
becomes the empty string. -/
def resolveToken (obj cell ridx : PyVal) (v : List Char) : PyVal :=
  if startsWithL (chars "item.") v then
    match getItemValue obj (v.drop 5) with
    | some value => coerceNone (invokeCallable value)
    | none => .vstr []
  else if v == chars "item" then coerceNone obj
  else if v == chars "row_idx" then coerceNone ridx
  else coerceNone cell

/-- Worker for `findGroups`: scans the template character by character.
The state is `some acc` while inside a candidate `\x7b...\x7d` group whose
inner characters (reversed) are `acc`, and `none` otherwise; a second
opening brace restarts the candidate, matching how the regex engine
re-attempts the match at the next position. -/
def findGroupsAux : Option (List Char) → List Char → List (List Char)
  | _, [] => []
  | none, c :: rest =>
    if c == '\x7b' then findGroupsAux (some []) rest
    else findGroupsAux none rest
  | some acc, c :: rest =>
    if c == '\x7d' then
      (if acc.isEmpty then findGroupsAux none rest
       else acc.reverse :: findGroupsAux none rest)
    else if c == '\x7b' then findGroupsAux (some []) rest
    else findGroupsAux (some (c :: acc)) rest

/-- Model of `re.findall(r"\x7b([^\x7b\x7d]+)\x7d", tag)` (tables.py line
103): the inner texts of all nonempty single-brace groups, left to right. -/
def findGroups (s : List Char) : List (List Char) := findGroupsAux none s

/-- Literal `\x7b\x7bif <v>\x7d\x7d` marker searched for by the
interpreter. -/
def ifMarker (v : List Char) : List Char :=
  chars "\x7b\x7bif " ++ v ++ chars "\x7d\x7d"

/-- Literal `\x7b\x7bendif\x7d\x7d` marker. -/
def endifMarker : List Char := chars "\x7b\x7bendif\x7d\x7d"

/-- Literal `\x7b\x7belse\x7d\x7d` marker. -/
def elseMarker : List Char := chars "\x7b\x7belse\x7d\x7d"

/-- Literal `\x7b\x7b<v>\x7d\x7d` placeholder for a value token. -/
def braceToken (v : List Char) : List Char :=
  chars "\x7b\x7b" ++ v ++ chars "\x7d\x7d"

/-- Model of the space normalisation shared by `parse_tag` (tables.py line
101) and `safe_tag` (line 91): `"\x7b\x7b "` collapses to `"\x7b\x7b"` and
`" \x7d\x7d"` to `"\x7d\x7d"`. -/
def collapseTagSpacing (t : List Char) : List Char :=
  pyReplace (chars " \x7d\x7d") (chars "\x7d\x7d")
    (pyReplace (chars "\x7b\x7b ") (chars "\x7b\x7b") t)

/-- Model of one iteration of the `for val in replace_vals` loop of
`parse_tag` (tables.py lines 104-163): structural `else`/`endif` tokens are
skipped, `if `-prefixed tokens reduce the conditional block located through
`str.index` (whose failure, modelled by `none`, propagates as the raised
`ValueError`), and every token finally substitutes its resolved value into
the template with `str.replace`. -/
def parseStep (obj cell ridx : PyVal) (tag val : List Char) : Option (List Char) :=
  if val == chars "endif" || val == chars "else" then some tag
  else
    let isIf := startsWithL (chars "if ") val
    let v := if isIf then val.drop 3 else val
    let value := resolveToken obj cell ridx v
    if isIf then
      match indexOfAux (ifMarker v) tag, indexOfAux endifMarker tag with
      | some start, some e0 =>
        let eEnd := e0 + 9
        let elseIdx := indexOfAux elseMarker tag
        let hasElse := match elseIdx with
          | some ei => decide (ei < eEnd)
          | none => false
        let tag2 :=
          if truthy value then
            if hasElse then
              pyReplaceFirst (ifMarker v) []
                (List.take (elseIdx.getD 0) tag ++ List.drop eEnd tag)
            else
              pyReplaceFirst endifMarker [] (pyReplaceFirst (ifMarker v) [] tag)
          else
            if hasElse then
              pyReplaceFirst endifMarker []
                (List.take start tag ++ List.drop (elseIdx.getD 0 + 8) tag)
            else
              List.take start tag ++ List.drop eEnd tag
        some (pyReplace (braceToken v) (pyStr value) tag2)
      | _, _ => none
    else
      some (pyReplace (braceToken v) (pyStr value) tag)

/-- Runs `parseStep` over the token list produced by `findGroups`,
threading the progressively rewritten template; `none` propagates an
uncaught exception. -/
def parseLoop (obj cell ridx : PyVal) : List (List Char) → List Char → Option (List Char)
  | [], tag => some tag
  | v :: vs, tag =>
    match parseStep obj cell ridx tag v with
    | none => none
    | some t2 => parseLoop obj cell ridx vs t2

/-- Model of `Column.parse_tag(obj, cell, row_idx)` (tables.py lines
93-165) applied to the column template `template`: normalise spacing, scan
the placeholder tokens once, then fold the substitution loop. -/
def parseTag (template : List Char) (obj cell ridx : PyVal) : Option (List Char) :=
  let tag := collapseTagSpacing template
  parseLoop obj cell ridx (findGroups tag) tag

/-- Template of the conditional claim:
`\x7b\x7bif item.active\x7d\x7dYES\x7b\x7belse\x7d\x7dNO\x7b\x7bendif\x7d\x7d`. -/
def tmplCond : List Char :=
  chars "\x7b\x7bif item.active\x7d\x7dYES\x7b\x7belse\x7d\x7dNO\x7b\x7bendif\x7d\x7d"

/-- Template of the else-less conditional claim:
`A\x7b\x7bif x\x7d\x7dB\x7b\x7bendif\x7d\x7dC`. -/
def tmplNoElse : List Char :=
  chars "A\x7b\x7bif x\x7d\x7dB\x7b\x7bendif\x7d\x7dC"

/-- The interpreter on `tmplCond` reduces, by computation, to the branch
selection on the resolved condition followed by the (vacuous) placeholder
substitution. -/
theorem parseTag_tmplCond_eq (obj cell ridx : PyVal) :
    parseTag tmplCond obj cell ridx =
      some (pyReplace (braceToken (chars "item.active"))
        (pyStr (resolveToken obj cell ridx (chars "item.active")))
        (if truthy (resolveToken obj cell ridx (chars "item.active"))
         then chars "YES" else chars "NO")) := rfl

/-- The interpreter on `tmplNoElse` reduces, by computation, to the branch
selection on the coerced cell value followed by the (vacuous) placeholder
substitution. -/
theorem parseTag_tmplNoElse_eq (obj cell ridx : PyVal) :
    parseTag tmplNoElse obj cell ridx =
      some (pyReplace (braceToken (chars "x")) (pyStr (coerceNone cell))
        (if truthy (coerceNone cell) then chars "ABC" else chars "AC")) := rfl

/-- Substituting the absent placeholder into the literal `YES` leaves it
unchanged, whatever the substitution value is. -/
theorem pyReplace_skip_yes (r : List Char) :
    pyReplace (braceToken (chars "item.active")) r (chars "YES") = chars "YES" := rfl

/-- Substituting the absent placeholder into the literal `NO` leaves it
unchanged. -/
theorem pyReplace_skip_no (r : List Char) :
    pyReplace (braceToken (chars "item.active")) r (chars "NO") = chars "NO" := rfl

/-- Substituting the absent placeholder into the literal `ABC` leaves it
unchanged. -/
theorem pyReplace_skip_abc (r : List Char) :
    pyReplace (braceToken (chars "x")) r (chars "ABC") = chars "ABC" := rfl

/-- Substituting the absent placeholder into the literal `AC` leaves it
unchanged. -/
theorem pyReplace_skip_ac (r : List Char) :
    pyReplace (braceToken (chars "x")) r (chars "AC") = chars "AC" := rfl

/-- C1: for every row object and cell value, `parse_tag` evaluates the
one-level conditional block as specified: on
`\x7b\x7bif item.active\x7d\x7dYES\x7b\x7belse\x7d\x7dNO\x7b\x7bendif\x7d\x7d`
the result is `YES` exactly when the resolved `item.active` is truthy and
`NO` otherwise, so in particular `YES` for `active = True`, `NO` for
`active = False`, and `NO` when the attribute is missing (resolution
failure is falsy); on `A\x7b\x7bif x\x7d\x7dB\x7b\x7bendif\x7d\x7dC` the
result is `ABC` for a truthy cell and `AC` for a falsy one, with all
markers removed. -/
theorem parse_tag_conditional (obj cell ridx : PyVal) :
    parseTag tmplCond obj cell ridx =
      some (if truthy (resolveToken obj cell ridx (chars "item.active"))
            then chars "YES" else chars "NO")
    ∧ parseTag tmplCond (.vobj [(chars "active", .vbool true)]) cell ridx = some (chars "YES")
    ∧ parseTag tmplCond (.vobj [(chars "active", .vbool false)]) cell ridx = some (chars "NO")
    ∧ parseTag tmplCond (.vobj []) cell ridx = some (chars "NO")
    ∧ parseTag tmplNoElse obj cell ridx =
        some (if truthy (coerceNone cell) then chars "ABC" else chars "AC") := by
  refine ⟨?_, rfl, rfl, rfl, ?_⟩
  · rw [parseTag_tmplCond_eq]
    cases h : truthy (resolveToken obj cell ridx (chars "item.active")) <;>
      simp [h, pyReplace_skip_yes, pyReplace_skip_no]
  · rw [parseTag_tmplNoElse_eq]
    cases h : truthy (coerceNone cell) <;>
      simp [h, pyReplace_skip_abc, pyReplace_skip_ac]

/-- Double-quote character. -/
def quoteChar : Char := '"'

/-- Single-quote character. -/
def apos : Char := '\x27'

/-- Backslash character. -/
def backslashChar : Char := '\\'

/-- Model of `Column.safe_tag()` (tables.py lines 89-91): the raw template
run through the two spacing replaces and then the two quote-escaping
replaces, never through the interpreter. -/
def safeTag (t : List Char) : List Char :=
  pyReplace [apos] [backslashChar, apos]
    (pyReplace [quoteChar] [backslashChar, quoteChar] (collapseTagSpacing t))

/-- Pointwise single-character substitution; the reference semantics of
`s.replace(a, r)` for a one-character pattern. -/
def substChar (a : Char) (r : List Char) : List Char → List Char
  | [] => []
  | c :: rest => (if c == a then r else [c]) ++ substChar a r rest

/-- Specification-level quote escaping of one character. -/
def escChar (c : Char) : List Char :=
  if c == quoteChar then [backslashChar, quoteChar]
  else if c == apos then [backslashChar, apos]
  else [c]

/-- Specification-level quote escaping of a template: one left-to-right
pass escaping both kinds of quotes. -/
def escapeQuotes : List Char → List Char
  | [] => []
  | c :: rest => escChar c ++ escapeQuotes rest

/-- With a one-character pattern, the fueled replace worker is the
pointwise substitution. -/
theorem replaceAllAux_single (a : Char) (r : List Char) :
    ∀ (s : List Char) (n : Nat), s.length ≤ n →
      replaceAllAux [a] r n s = substChar a r s := by
  intro s
  induction s with
  | nil => intro n _; cases n <;> rfl
  | cons c rest ih =>
    intro n h
    cases n with
    | zero => simp at h
    | succ m =>
      have hm : rest.length ≤ m := Nat.le_of_succ_le_succ (by simpa using h)
      by_cases hc : a = c
      · subst hc
        simp [replaceAllAux, dropMatched, substChar, ih m hm]
      · have hc1 : (a == c) = false := by simpa using hc
        have hc2 : (c == a) = false := by simpa using (Ne.symm hc)
        simp [replaceAllAux, dropMatched, substChar, hc1, hc2, ih m hm]

/-- Python single-character `replace` equals the pointwise substitution. -/
theorem pyReplace_single (a : Char) (r s : List Char) :
    pyReplace [a] r s = substChar a r s :=
  replaceAllAux_single a r s s.length (Nat.le_refl _)

/-- Pointwise substitution distributes over list append. -/
theorem substChar_append (a : Char) (r x y : List Char) :
    substChar a r (x ++ y) = substChar a r x ++ substChar a r y := by
  induction x with
  | nil => rfl
  | cons c cs ih => simp [substChar, ih]

/-- Escaping double quotes and then single quotes in two passes is the
same as the one-pass specification `escapeQuotes`. -/
theorem substChar_quotes_eq_escape (s : List Char) :
    substChar apos [backslashChar, apos]
      (substChar quoteChar [backslashChar, quoteChar] s) = escapeQuotes s := by
  induction s with
  | nil => rfl
  | cons c rest ih =>
    have key : substChar apos [backslashChar, apos]
        (substChar quoteChar [backslashChar, quoteChar] [c]) = escChar c := by
      by_cases hq : c = quoteChar
      · subst hq; decide
      · by_cases ha : c = apos
        · subst ha; decide
        · have hq1 : (c == quoteChar) = false := by simpa using hq
          have ha1 : (c == apos) = false := by simpa using ha
          simp [substChar, escChar, hq1, ha1]
    have hsplit : (c :: rest) = [c] ++ rest := rfl
    rw [hsplit, substChar_append, substChar_append, key, ih]
    rfl

/-- C7 counterexample: on the template `\x7b\x7b item.name \x7d\x7d`,
`safe_tag` only removes the inner spaces and keeps the doubled braces; it
does not collapse `\x7b\x7b` to a single `\x7b` as the claim states. -/
theorem safe_tag_braces_cex :
    safeTag (chars "\x7b\x7b item.name \x7d\x7d") = chars "\x7b\x7bitem.name\x7d\x7d"
    ∧ safeTag (chars "\x7b\x7b item.name \x7d\x7d") ≠ chars "\x7bitem.name\x7d" := by
  exact ⟨rfl, by decide⟩

/-- C7 amended: `safe_tag()` returns the raw template with the spacing
inside the double-brace delimiters normalised (the doubled braces are
kept) and with both kinds of quote characters backslash-escaped in a
single left-to-right pass; it never evaluates a placeholder, so a
normalised, quote-free template such as `\x7b\x7bitem.name\x7d\x7d` is
returned verbatim. -/
theorem safe_tag_normalizes (t : List Char) :
    safeTag t = escapeQuotes (collapseTagSpacing t)
    ∧ safeTag (chars "\x7b\x7bitem.name\x7d\x7d") = chars "\x7b\x7bitem.name\x7d\x7d" := by
  constructor
  · calc safeTag t
        = substChar apos [backslashChar, apos]
            (substChar quoteChar [backslashChar, quoteChar] (collapseTagSpacing t)) := by
          simp [safeTag, pyReplace_single]
      _ = escapeQuotes (collapseTagSpacing t) := substChar_quotes_eq_escape _
  · rfl

/-- Canonical record form of the `Column` dict (tables.py lines 34-56).
The attribute values that the claims exercise are strings or `None`, so
values are modelled as `Option (List Char)`; `extra` holds dict keys that
`Column.__init__` does not recognise (Python keeps them because `Column`
subclasses `dict` and `from_dict` is a plain `dict.update`). -/
structure Column where
  name : Option (List Char)
  display_name : Option (List Char)
  order_by : Option (List Char)
  tag : Option (List Char)
  class_names : Option (List Char)
  style : Option (List Char)
  annotate : Option (List Char)
  extra : List (List Char × Option (List Char))
deriving DecidableEq

/-- The three construction shapes accepted for the first `Column` argument
(tables.py lines 36-43): a bare name (possibly `None`), a positional list,
or a mapping. -/
inductive ColInput where
  | cstr : Option (List Char) → ColInput
  | clist : List (Option (List Char)) → ColInput
  | cdict : List (List Char × Option (List Char)) → ColInput
deriving DecidableEq

/-- Insert-or-overwrite of one key in the unrecognised-key table, the
behaviour of `dict.update` for a single key. -/
def setExtra : List (List Char × Option (List Char)) → List Char × Option (List Char) →
    List (List Char × Option (List Char))
  | [], kv => [kv]
  | e :: es, kv => if e.1 == kv.1 then kv :: es else e :: setExtra es kv

/-- Effect of one key of a `dict.update` on the column record: recognised
keys set the corresponding attribute, anything else is stored verbatim. -/
def applyDictEntry (c : Column) (kv : List Char × Option (List Char)) : Column :=
  if kv.1 == chars "name" then { c with name := kv.2 }
  else if kv.1 == chars "display_name" then { c with display_name := kv.2 }
  else if kv.1 == chars "order_by" then { c with order_by := kv.2 }
  else if kv.1 == chars "tag" then { c with tag := kv.2 }
  else if kv.1 == chars "class_names" then { c with class_names := kv.2 }
  else if kv.1 == chars "style" then { c with style := kv.2 }
  else if kv.1 == chars "annotate" then { c with annotate := kv.2 }
  else { c with extra := setExtra c.extra kv }

/-- Python `str` applied to the stored name: `None` stringifies to
`"None"`. -/
def strOfOptName : Option (List Char) → List Char
  | none => chars "None"
  | some s => s

/-- Guarded display-name backfill of `from_dict`/`from_list` (tables.py
lines 63-64 and 84-85): only fires when the name is known. -/
def backfillDisplayNamed (c : Column) : Column :=
  match c.display_name, c.name with
  | none, some nm => { c with display_name := some (pyTitle (underscoreToSpace nm)) }
  | _, _ => c

/-- Guarded order-by backfill of `from_dict`/`from_list` (tables.py lines
65-66 and 86-87). -/
def backfillOrderNamed (c : Column) : Column :=
  match c.order_by, c.name with
  | none, some nm => { c with order_by := some nm }
  | _, _ => c

/-- The two guarded backfills that end `from_dict` and `from_list`. -/
def backfillNamed (c : Column) : Column := backfillOrderNamed (backfillDisplayNamed c)

/-- Unconditional display-name backfill ending `Column.__init__` (tables.py
lines 53-54): stringifies even a `None` name. -/
def backfillDisplayAlways (c : Column) : Column :=
  match c.display_name with
  | none => { c with display_name := some (pyTitle (underscoreToSpace (strOfOptName c.name))) }
  | some _ => c

/-- Unconditional order-by backfill ending `Column.__init__` (tables.py
lines 55-56). -/
def backfillOrderAlways (c : Column) : Column :=
  match c.order_by with
  | none => { c with order_by := some (strOfOptName c.name) }
  | some _ => c

/-- The two unconditional backfills that end `Column.__init__`. -/
def backfillFinal (c : Column) : Column := backfillOrderAlways (backfillDisplayAlways c)

/-- Model of `Column.from_dict` (tables.py lines 58-66): a `dict.update`
over the entries followed by the guarded backfills.  No key is ever
derived from `display_name`. -/
def fromDictC (c : Column) (d : List (List Char × Option (List Char))) : Column :=
  backfillNamed (d.foldl applyDictEntry c)

/-- Positional assignment of `Column.from_list` (tables.py lines 68-81):
entry `k` is applied only when the list is longer than `k`; entries past
position 6 are ignored. -/
def fromListPositional (c : Column) (li : List (Option (List Char))) : Column :=
  let c0 := match li.get? 0 with | some v => { c with name := v } | none => c
  let c1 := match li.get? 1 with | some v => { c0 with display_name := v } | none => c0
  let c2 := match li.get? 2 with | some v => { c1 with order_by := v } | none => c1
  let c3 := match li.get? 3 with | some v => { c2 with tag := v } | none => c2
  let c4 := match li.get? 4 with | some v => { c3 with class_names := v } | none => c3
  match li.get? 5 with | some v => { c4 with style := v } | none => c4

/-- Model of `Column.from_list` (tables.py lines 68-87). -/
def fromListC (c : Column) (li : List (Option (List Char))) : Column :=
  backfillNamed (fromListPositional c li)

/-- Model of `Column.__init__` (tables.py lines 35-56) with the keyword
arguments `display_name`, `order_by`, `tag`, `class_names`, `style` and
`annotate`: shape detection on the first argument, then the unconditional
backfills. -/
def mkColumn (arg : ColInput) (dn ob tg cn st an : Option (List Char)) : Column :=
  let base : Column :=
    ⟨(match arg with | .cstr s => s | _ => none), dn, ob, tg, cn, st, an, []⟩
  let c := match arg with
    | .cstr _ => base
    | .cdict d => fromDictC base d
    | .clist li => fromListC base li
  backfillFinal c

/-- A `Column(spec)` call with every keyword argument left at its default
(`class_names` and `style` default to the empty string). -/
def mkColumnDefault (arg : ColInput) : Column :=
  mkColumn arg none none none (some []) (some []) none

/-- Schema field descriptor as `get_all_model_fields` consumes it: the
field name, its verbose name, and whether the field is an auto-generated
primary key or a parent link.  The list order models the
creation-counter order that `sorted(opts.fields + opts.many_to_many)`
produces. -/
structure MField where
  name : List Char
  verbose_name : List Char
  isAuto : Bool
  parentLink : Bool
deriving DecidableEq

/-- Model of `get_all_model_fields` (tables.py lines 26-31): one
`Column(f.name, f.verbose_name.title(), f.name)` per non-auto,
non-parent-link field, in declared order. -/
def getAllModelFields (m : List MField) : List Column :=
  (m.filter (fun f => !f.isAuto && !f.parentLink)).map
    (fun f => mkColumn (.cstr (some f.name)) (some (pyTitle f.verbose_name)) (some f.name)
      none (some []) (some []) none)

/-- The `Meta.fields` option: `None`, an explicit sequence of column
specs, or a mapping from name to override dict. -/
inductive FieldsSpec where
  | fnone : FieldsSpec
  | fseq : List ColInput → FieldsSpec
  | fdict : List (List Char × List (List Char × Option (List Char))) → FieldsSpec
deriving DecidableEq

/-- Reading a column back as the dict that `Column(f)` receives when `f`
is itself a `Column` (the derived-fields path re-wraps columns through
the dict branch of the constructor). -/
def Column.toEntries (c : Column) : List (List Char × Option (List Char)) :=
  [(chars "name", c.name), (chars "display_name", c.display_name),
   (chars "order_by", c.order_by), (chars "tag", c.tag),
   (chars "class_names", c.class_names), (chars "style", c.style),
   (chars "annotate", c.annotate)] ++ c.extra

/-- Filter applied in the sequence branch of `get_columns` (tables.py
lines 340-343): keep a column iff its resolved name is not `None` and not
in the exclude list. -/
def keepColumn (excl : List (List Char)) (c : Column) : Bool :=
  match c.name with
  | none => false
  | some s => !(excl.any (fun x => x == s))

/-- Sequence branch of `get_columns`: build a `Column` from each spec and
filter. -/
def seqColumns (excl : List (List Char)) (l : List ColInput) : List Column :=
  (l.map mkColumnDefault).filter (keepColumn excl)

/-- Mapping branch of `get_columns` (tables.py lines 347-354):
`Column(key)` then `from_dict(override)`; the exclusion test uses the
mapping KEY, not the resolved column name. -/
def dictColumns (excl : List (List Char))
    (l : List (List Char × List (List Char × Option (List Char)))) : List Column :=
  ((l.map (fun kv => (kv.1, fromDictC (mkColumnDefault (.cstr (some kv.1))) kv.2))).filter
    (fun p => (match p.2.name with | none => false | some _ => true)
      && !(excl.any (fun x => x == p.1)))).map (fun p => p.2)

/-- Column specs fed back into the constructor by the derived-fields path:
each derived `Column` is a dict, so `Column(f)` takes the dict branch. -/
def deriveInputs (m : List MField) : List ColInput :=
  (getAllModelFields m).map (fun c => ColInput.cdict c.toEntries)

/-- Model of `BaseTable.get_columns` (tables.py lines 316-356): empty
result when no model is configured; assertion error when a model is
present but both `fields` and `exclude` are `None`; otherwise derive or
normalise the column list and filter it. -/
def getColumns (model : Option (List MField)) (fields : FieldsSpec)
    (exclude : Option (List (List Char))) : Except Unit (List Column) :=
  match model with
  | none => Except.ok []
  | some m =>
    match fields, exclude with
    | .fnone, none => Except.error ()
    | _, _ =>
      let excl := exclude.getD []
      match fields with
      | .fnone => Except.ok (seqColumns excl (deriveInputs m))
      | .fseq [] => Except.ok (seqColumns excl (deriveInputs m))
      | .fseq l => Except.ok (seqColumns excl l)
      | .fdict [] => Except.ok (seqColumns excl (deriveInputs m))
      | .fdict l => Except.ok (dictColumns excl l)

/-- Class-level table state built by `TableMetaclass.__new__` (tables.py
lines 195-202): the resolved column list; the error case models the
`AssertionError` escaping at type-definition time. -/
structure TableClass where
  base_columns : List Column
deriving DecidableEq

/-- Model of table-type definition: `get_columns` runs inside the
metaclass, so its assertion fires when the class statement executes. -/
def defineTable (model : Option (List MField)) (fields : FieldsSpec)
    (exclude : Option (List (List Char))) : Except Unit TableClass :=
  match getColumns model fields exclude with
  | Except.error e => Except.error e
  | Except.ok cols => Except.ok ⟨cols⟩

/-- Applying one dict entry whose key is not `name` leaves the stored name
unchanged. -/
theorem applyDictEntry_name (c : Column) (kv : List Char × Option (List Char))
    (hk : kv.1 ≠ chars "name") : (applyDictEntry c kv).name = c.name := by
  unfold applyDictEntry
  rw [if_neg (by simpa using hk)]
  split_ifs <;> rfl

/-- A `dict.update` with no `name` key leaves the stored name unchanged. -/
theorem foldl_applyDictEntry_name (d : List (List Char × Option (List Char))) :
    ∀ (c : Column), (∀ kv ∈ d, kv.1 ≠ chars "name") →
      (d.foldl applyDictEntry c).name = c.name := by
  induction d with
  | nil => intro c _; rfl
  | cons kv rest ih =>
    intro c h
    have h1 : kv.1 ≠ chars "name" := h kv (by simp)
    have h2 : ∀ e ∈ rest, e.1 ≠ chars "name" := fun e he => h e (by simp [he])
    simp only [List.foldl_cons]
    rw [ih (applyDictEntry c kv) h2, applyDictEntry_name c kv h1]

/-- The guarded display backfill does not touch the name. -/
theorem backfillDisplayNamed_name (c : Column) :
    (backfillDisplayNamed c).name = c.name := by
  unfold backfillDisplayNamed; split <;> rfl

/-- The guarded order backfill does not touch the name. -/
theorem backfillOrderNamed_name (c : Column) :
    (backfillOrderNamed c).name = c.name := by
  unfold backfillOrderNamed; split <;> rfl

/-- The pair of guarded backfills does not touch the name. -/
theorem backfillNamed_name (c : Column) : (backfillNamed c).name = c.name := by
  unfold backfillNamed; rw [backfillOrderNamed_name, backfillDisplayNamed_name]

/-- The unconditional display backfill does not touch the name. -/
theorem backfillDisplayAlways_name (c : Column) :
    (backfillDisplayAlways c).name = c.name := by
  unfold backfillDisplayAlways; split <;> rfl

/-- The unconditional order backfill does not touch the name. -/
theorem backfillOrderAlways_name (c : Column) :
    (backfillOrderAlways c).name = c.name := by
  unfold backfillOrderAlways; split <;> rfl

/-- The pair of unconditional backfills does not touch the name. -/
theorem backfillFinal_name (c : Column) : (backfillFinal c).name = c.name := by
  unfold backfillFinal; rw [backfillOrderAlways_name, backfillDisplayAlways_name]

/-- After the unconditional display backfill, the display name is set. -/
theorem backfillDisplayAlways_display (c : Column) :
    (backfillDisplayAlways c).display_name ≠ none := by
  unfold backfillDisplayAlways; split <;> simp_all

/-- The unconditional order backfill does not touch the display name. -/
theorem backfillOrderAlways_display (c : Column) :
    (backfillOrderAlways c).display_name = c.display_name := by
  unfold backfillOrderAlways; split <;> rfl

/-- After the unconditional order backfill, the sort key is set. -/
theorem backfillOrderAlways_order (c : Column) :
    (backfillOrderAlways c).order_by ≠ none := by
  unfold backfillOrderAlways; split <;> simp_all

/-- After `Column.__init__` finishes, the display name is set. -/
theorem backfillFinal_display (c : Column) :
    (backfillFinal c).display_name ≠ none := by
  unfold backfillFinal
  rw [backfillOrderAlways_display]
  exact backfillDisplayAlways_display _

/-- After `Column.__init__` finishes, the sort key is set. -/
theorem backfillFinal_order (c : Column) : (backfillFinal c).order_by ≠ none :=
  backfillOrderAlways_order _

/-- C10: in every construction shape and for all keyword arguments, a
constructed column has `display_name` and `order_by` set; in particular
when the name resolves to `None` (bare `None` name, empty list, empty
dict) the final backfill stringifies it, leaving `display_name = "None"`
and `order_by = "None"` rather than leaving them unset. -/
theorem backfill_never_none (arg : ColInput) (dn ob tg cn st an : Option (List Char)) :
    (mkColumn arg dn ob tg cn st an).display_name ≠ none
    ∧ (mkColumn arg dn ob tg cn st an).order_by ≠ none
    ∧ (mkColumnDefault (.cstr none)).display_name = some (chars "None")
    ∧ (mkColumnDefault (.cstr none)).order_by = some (chars "None")
    ∧ (mkColumnDefault (.cdict [])).display_name = some (chars "None")
    ∧ (mkColumnDefault (.cdict [])).order_by = some (chars "None")
    ∧ (mkColumnDefault (.clist [])).display_name = some (chars "None")
    ∧ (mkColumnDefault (.clist [])).order_by = some (chars "None") :=
  ⟨backfillFinal_display _, backfillFinal_order _, rfl, rfl, rfl, rfl, rfl, rfl⟩

/-- C8 counterexample: a `Column` built from a mapping holding only
`display_name = "Full Name"` keeps `name = None`; the name `"full_name"`
the claim prescribes is never derived. -/
theorem from_dict_name_cex :
    (mkColumnDefault (.cdict [(chars "display_name", some (chars "Full Name"))])).name = none
    ∧ (mkColumnDefault (.cdict [(chars "display_name", some (chars "Full Name"))])).name
        ≠ some (chars "full_name") :=
  ⟨rfl, by decide⟩

/-- C8 amended: `from_dict` never writes the name unless the mapping has a
`name` key, so a mapping without one leaves `name = None` whatever
`display_name` it holds; concretely, `display_name = "Full Name"` is kept
verbatim, `name` stays `None` and `order_by` backfills to `"None"`. -/
theorem from_dict_no_name_derivation (d : List (List Char × Option (List Char)))
    (h : ∀ kv ∈ d, kv.1 ≠ chars "name") :
    (mkColumnDefault (.cdict d)).name = none
    ∧ mkColumnDefault (.cdict [(chars "display_name", some (chars "Full Name"))])
        = ⟨none, some (chars "Full Name"), some (chars "None"), none,
           some [], some [], none, []⟩ := by
  constructor
  · calc (mkColumnDefault (.cdict d)).name
        = (backfillFinal (fromDictC ⟨none, none, none, none, some [], some [], none, []⟩ d)).name := rfl
      _ = (fromDictC ⟨none, none, none, none, some [], some [], none, []⟩ d).name :=
          backfillFinal_name _
      _ = (d.foldl applyDictEntry ⟨none, none, none, none, some [], some [], none, []⟩).name :=
          backfillNamed_name _
      _ = none := foldl_applyDictEntry_name d _ h
  · rfl

/-- Witness for the amended C8 theorem at the concrete mapping of the
claim. -/
theorem from_dict_no_name_derivation_witness :
    (mkColumnDefault (.cdict [(chars "display_name", some (chars "Full Name"))])).name = none :=
  (from_dict_no_name_derivation [(chars "display_name", some (chars "Full Name"))]
    (by decide)).1

/-- C9 counterexample: a mapping with `name = "title"` and
`sort = "custom"` produces `order_by = "title"` (the default from the
name), not `"custom"` as the claimed alias would require. -/
theorem sort_alias_cex :
    (mkColumnDefault (.cdict [(chars "name", some (chars "title")),
        (chars "sort", some (chars "custom"))])).order_by ≠ some (chars "custom")
    ∧ (mkColumnDefault (.cdict [(chars "name", some (chars "title")),
        (chars "sort", some (chars "custom"))])).order_by = some (chars "title") :=
  ⟨by decide, rfl⟩

/-- C9 amended: the key `sort` is not recognised by the column
constructor: `dict.update` stores it as an unrecognised extra key and
`order_by` still backfills from the name, for every name and every value
of `sort`. -/
theorem sort_key_not_alias (n v : List Char) :
    (mkColumnDefault (.cdict [(chars "name", some n), (chars "sort", some v)])).order_by = some n
    ∧ (mkColumnDefault (.cdict [(chars "name", some n), (chars "sort", some v)])).extra
        = [(chars "sort", some v)] :=
  ⟨rfl, rfl⟩

/-- Three-field demonstration schema of the claims: an auto primary key
and two plain text fields. -/
def exampleSchema : List MField :=
  [⟨chars "id", chars "id", true, false⟩,
   ⟨chars "name", chars "name", false, false⟩,
   ⟨chars "email", chars "email", false, false⟩]

/-- Column derived for the `name` field of `exampleSchema`. -/
def exColName : Column :=
  ⟨some (chars "name"), some (chars "Name"), some (chars "name"), none,
   some [], some [], none, []⟩

/-- Column derived for the `email` field of `exampleSchema`. -/
def exColEmail : Column :=
  ⟨some (chars "email"), some (chars "Email"), some (chars "email"), none,
   some [], some [], none, []⟩

/-- Every column surviving the sequence-branch filter satisfies the keep
predicate. -/
theorem seqColumns_keep (excl : List (List Char)) (l : List ColInput) :
    ∀ c ∈ seqColumns excl l, keepColumn excl c = true :=
  fun _ hc => (List.mem_filter.mp hc).2

/-- A kept column has a resolved name. -/
theorem keepColumn_name (excl : List (List Char)) (c : Column)
    (h : keepColumn excl c = true) : c.name ≠ none := by
  intro hn
  unfold keepColumn at h
  rw [hn] at h
  simp at h

/-- A kept column is not named in the exclude list. -/
theorem keepColumn_not_excluded (excl : List (List Char)) (c : Column) (s : List Char)
    (h : keepColumn excl c = true) (hs : c.name = some s) :
    excl.any (fun x => x == s) = false := by
  unfold keepColumn at h
  rw [hs] at h
  simpa using h

/-- Columns surviving the mapping branch also have a resolved name. -/
theorem dictColumns_name (excl : List (List Char))
    (dl : List (List Char × List (List Char × Option (List Char)))) :
    ∀ c ∈ dictColumns excl dl, c.name ≠ none := by
  intro c hc hn
  unfold dictColumns at hc
  rcases List.mem_map.mp hc with ⟨p, hp, hpc⟩
  have hq := (List.mem_filter.mp hp).2
  have hpn : p.2.name = none := by rw [hpc]; exact hn
  rw [hpn] at hq
  simp at hq

/-- C4 counterexample: with `fields = \x7b"a": \x7b"name": "b"\x7d\x7d`
and `exclude = ["b"]`, the mapping branch keeps the column because the
exclusion test uses the mapping key `"a"`, yet the resolved column name
`"b"` is in the exclude set, contradicting the claim that such a column
is dropped. -/
theorem get_columns_exclude_cex :
    getColumns (some exampleSchema)
        (.fdict [(chars "a", [(chars "name", some (chars "b"))])]) (some [chars "b"])
      = Except.ok [⟨some (chars "b"), some (chars "A"), some (chars "a"), none,
          some [], some [], none, []⟩]
    ∧ [chars "b"].any (fun x => x == chars "b") = true :=
  ⟨rfl, rfl⟩

/-- C4 amended: with a model present, `fields = None` derives one column
per non-auto, non-parent-link schema field in declared order (the
`[id(auto), name, email]` schema yields `[name, email]`); every returned
column has a resolved name; and for the derived and explicit-sequence
sources the exclusion filter drops columns by their resolved name.  (The
mapping source instead filters by mapping key, see the counterexample.) -/
theorem get_columns_resolution (m : List MField) (fields : FieldsSpec)
    (ex : Option (List (List Char))) (cols : List Column)
    (h : getColumns (some m) fields ex = Except.ok cols) :
    (∀ c ∈ cols, c.name ≠ none)
    ∧ (∀ l, fields = FieldsSpec.fseq l →
        ∀ c ∈ cols, ∀ s, c.name = some s → (ex.getD []).any (fun x => x == s) = false)
    ∧ (fields = FieldsSpec.fnone →
        ∀ c ∈ cols, ∀ s, c.name = some s → (ex.getD []).any (fun x => x == s) = false)
    ∧ getColumns (some exampleSchema) FieldsSpec.fnone (some [])
        = Except.ok [exColName, exColEmail] := by
  refine ⟨?_, ?_, ?_, rfl⟩
  · cases fields with
    | fnone =>
      cases ex with
      | none => exact absurd h (by simp [getColumns])
      | some e =>
        have he : cols = seqColumns e (deriveInputs m) := by
          have h2 := h; simp [getColumns] at h2; exact h2.symm
        rw [he]
        exact fun c hc => keepColumn_name _ _ (seqColumns_keep _ _ c hc)
    | fseq l =>
      cases l with
      | nil =>
        have he : cols = seqColumns (ex.getD []) (deriveInputs m) := by
          have h2 := h; simp [getColumns] at h2; exact h2.symm
        rw [he]
        exact fun c hc => keepColumn_name _ _ (seqColumns_keep _ _ c hc)
      | cons a as =>
        have he : cols = seqColumns (ex.getD []) (a :: as) := by
          have h2 := h; simp [getColumns] at h2; exact h2.symm
        rw [he]
        exact fun c hc => keepColumn_name _ _ (seqColumns_keep _ _ c hc)
    | fdict dl =>
      cases dl with
      | nil =>
        have he : cols = seqColumns (ex.getD []) (deriveInputs m) := by
          have h2 := h; simp [getColumns] at h2; exact h2.symm
        rw [he]
        exact fun c hc => keepColumn_name _ _ (seqColumns_keep _ _ c hc)
      | cons a as =>
        have he : cols = dictColumns (ex.getD []) (a :: as) := by
          have h2 := h; simp [getColumns] at h2; exact h2.symm
        rw [he]
        exact dictColumns_name _ _
  · intro l hl
    subst hl
    cases l with
    | nil =>
      have he : cols = seqColumns (ex.getD []) (deriveInputs m) := by
        have h2 := h; simp [getColumns] at h2; exact h2.symm
      rw [he]
      exact fun c hc s hs => keepColumn_not_excluded _ _ _ (seqColumns_keep _ _ c hc) hs
    | cons a as =>
      have he : cols = seqColumns (ex.getD []) (a :: as) := by
        have h2 := h; simp [getColumns] at h2; exact h2.symm
      rw [he]
      exact fun c hc s hs => keepColumn_not_excluded _ _ _ (seqColumns_keep _ _ c hc) hs
  · intro hf
    subst hf
    cases ex with
    | none => exact absurd h (by simp [getColumns])
    | some e =>
      have he : cols = seqColumns e (deriveInputs m) := by
        have h2 := h; simp [getColumns] at h2; exact h2.symm
      rw [he]
      exact fun c hc s hs => keepColumn_not_excluded _ _ _ (seqColumns_keep _ _ c hc) hs

/-- Witness for the amended C4 theorem: the derived-columns example, with
the resolution hypothesis discharged by computation. -/
theorem get_columns_resolution_witness :
    getColumns (some exampleSchema) FieldsSpec.fnone (some [])
      = Except.ok [exColName, exColEmail]
    ∧ exColName.name ≠ none := by
  have T := get_columns_resolution exampleSchema FieldsSpec.fnone (some [])
    [exColName, exColEmail] rfl
  exact ⟨T.2.2.2, T.1 exColName (by simp)⟩

/-- Truthiness of the result constructor of a table definition. -/
def exceptIsOk : Except Unit TableClass → Bool
  | Except.ok _ => true
  | Except.error _ => false

/-- C5 counterexample: defining a table with no model and both `fields`
and `exclude` unset does NOT raise; `get_columns` short-circuits on the
missing model and yields an empty column collection. -/
theorem get_columns_no_model_cex :
    defineTable none FieldsSpec.fnone none = Except.ok ⟨[]⟩
    ∧ defineTable none FieldsSpec.fnone none ≠ Except.error () :=
  ⟨rfl, fun hcontra => Except.noConfusion hcontra⟩

/-- C5 amended: the assertion in `get_columns` fires (at type-definition
time, since the metaclass calls it) exactly when a model IS present and
both `fields` and `exclude` are `None`; with no model the definition
silently produces an empty column collection, and in every other
configuration column resolution succeeds without raising. -/
theorem get_columns_config_error (m : List MField) (fields : FieldsSpec)
    (ex : Option (List (List Char))) :
    defineTable (some m) FieldsSpec.fnone none = Except.error ()
    ∧ defineTable none fields ex = Except.ok ⟨[]⟩
    ∧ (¬(fields = FieldsSpec.fnone ∧ ex = none) →
        exceptIsOk (defineTable (some m) fields ex) = true) := by
  refine ⟨rfl, rfl, ?_⟩
  intro hne
  cases fields with
  | fnone =>
    cases ex with
    | none => exact absurd ⟨rfl, rfl⟩ hne
    | some e => rfl
  | fseq l => cases l with
    | nil => cases ex <;> rfl
    | cons a as => cases ex <;> rfl
  | fdict dl => cases dl with
    | nil => cases ex <;> rfl
    | cons a as => cases ex <;> rfl

/-- Witness for the amended C5 theorem: an explicit field list with no
exclude set resolves without error. -/
theorem get_columns_config_error_witness :
    exceptIsOk (defineTable (some exampleSchema)
      (FieldsSpec.fseq [ColInput.cstr (some (chars "name"))]) none) = true :=
  (get_columns_config_error exampleSchema
    (FieldsSpec.fseq [ColInput.cstr (some (chars "name"))]) none).2.2 (by simp)

/-- Django field classes relevant to the ordering transformer: the nine
text-like classes tested by the `isinstance` check (tables.py lines
280-282) plus representative non-text kinds. -/
inductive FieldKind where
  | charK | textK | emailK | fileK | filePathK | slugK | urlK | uuidK | ipAddrK
  | autoK | intK | boolK | dateK | decimalK
deriving DecidableEq

/-- A model field as `_get_special_ordering` sees it: either a plain field
of some kind (no `target_field`, so following a relation through it
raises), or a relation whose `target_field.model` is the next schema. -/
inductive DField where
  | plain : FieldKind → DField
  | rel : List (List Char × DField) → DField

/-- Model of `model._meta.get_field(name)`: association lookup with `none`
for the raised `FieldDoesNotExist`. -/
def lookupField : List (List Char × DField) → List Char → Option DField
  | [], _ => none
  | kv :: rest, n => if kv.1 == n then some kv.2 else lookupField rest n

/-- Fuel-indexed model of the relation walk of `_get_special_ordering`
(tables.py lines 268-275): while the remaining path contains `__`, split
at the first occurrence, resolve the head on the current schema, and move
to the relation target; finally resolve the last segment.  `none` models
any exception caught by the surrounding `try`.  Each hop removes the
separator, so fuel equal to the path length is never exhausted. -/
def walkAux : Nat → List (List Char × DField) → List Char → Option DField
  | 0, m, col =>
    (match splitOnceSep (chars "__") col with
     | none => lookupField m col
     | some _ => none)
  | Nat.succ f, m, col =>
    match splitOnceSep (chars "__") col with
    | none => lookupField m col
    | some (nm, rest) =>
      match lookupField m nm with
      | some (DField.rel t) => walkAux f t rest
      | _ => none

/-- The relation walk at its canonical fuel. -/
def walkField (m : List (List Char × DField)) (col : List Char) : Option DField :=
  walkAux col.length m col

/-- Model of `col.startswith("-")` plus the strip (tables.py lines
261-264): the negation flag and the remaining path. -/
def stripNeg : List Char → Bool × List Char
  | [] => (false, [])
  | c :: rest => if c == '-' then (true, rest) else (false, c :: rest)

/-- The `isinstance(field, (CharField, ...))` test of tables.py lines
280-282: true exactly for the nine text-like kinds; relations (and hence
relation ids) are not text. -/
def isTextField : DField → Bool
  | .plain k =>
    (match k with
     | .charK | .textK | .emailK | .fileK | .filePathK | .slugK | .urlK
     | .uuidK | .ipAddrK => true
     | _ => false)
  | .rel _ => false

/-- Result of transforming one sort token: the unchanged literal token, or
a case-insensitive `Upper(col)` key, ascending or descending. -/
inductive OrderKey where
  | raw : List Char → OrderKey
  | upperAsc : List Char → OrderKey
  | upperDesc : List Char → OrderKey
deriving DecidableEq

/-- Model of `BaseTable._get_special_ordering` (tables.py lines 256-286):
strip the negation, walk the relation path on the configured model (a
missing model makes the first `get_field` raise), and rewrite text-like
fields to an `Upper` key while returning every other token unchanged. -/
def getSpecialOrdering (model : Option (List (List Char × DField)))
    (sortName : List Char) : OrderKey :=
  match model with
  | none => OrderKey.raw sortName
  | some m =>
    match walkField m (stripNeg sortName).2 with
    | none => OrderKey.raw sortName
    | some f =>
      if isTextField f then
        (if (stripNeg sortName).1 then OrderKey.upperDesc (stripNeg sortName).2
         else OrderKey.upperAsc (stripNeg sortName).2)
      else OrderKey.raw sortName

/-- Model of `BaseTable.get_ordering` (tables.py lines 251-253): the tuple
of per-token transforms over the comma-split specification. -/
def getOrdering (model : Option (List (List Char × DField)))
    (s : List Char) : List OrderKey :=
  (pySplitChar ',' s).map (getSpecialOrdering model)

/-- Demonstration schema of the ordering claims: a text `title`, a
numeric auto `id`, and a relation `author` to a schema with a text
`name`. -/
def demoModel : List (List Char × DField) :=
  [(chars "title", DField.plain FieldKind.charK),
   (chars "id", DField.plain FieldKind.autoK),
   (chars "author", DField.rel [(chars "name", DField.plain FieldKind.charK),
                                (chars "id", DField.plain FieldKind.intK)])]

/-- C2: the ordering transformer maps the comma-split tokens in order, and
a token whose relation walk resolves to a field is rewritten to a
case-insensitive `Upper` key (descending under a leading `-`) exactly when
the field is text-like, every other kind keeping the literal token; on the
demonstration schema `-title` becomes a descending key, numeric `id` is
unchanged, and `author__name` walks the relation and gets an ascending key
for the whole path. -/
theorem ordering_text_keys (m : List (List Char × DField)) (s t : List Char) (f : DField)
    (h : walkField m (stripNeg t).2 = some f) :
    getOrdering (some m) s = (pySplitChar ',' s).map (getSpecialOrdering (some m))
    ∧ getSpecialOrdering (some m) t =
        (if isTextField f then
          (if (stripNeg t).1 then OrderKey.upperDesc (stripNeg t).2
           else OrderKey.upperAsc (stripNeg t).2)
         else OrderKey.raw t)
    ∧ getSpecialOrdering (some demoModel) (chars "-title") = OrderKey.upperDesc (chars "title")
    ∧ getSpecialOrdering (some demoModel) (chars "id") = OrderKey.raw (chars "id")
    ∧ getSpecialOrdering (some demoModel) (chars "author__name")
        = OrderKey.upperAsc (chars "author__name")
    ∧ getOrdering (some demoModel) (chars "-title,id")
        = [OrderKey.upperDesc (chars "title"), OrderKey.raw (chars "id")] := by
  refine ⟨rfl, ?_, rfl, rfl, rfl, rfl⟩
  simp [getSpecialOrdering, h]

/-- Witness for the C2 theorem at the text field `title` of the
demonstration schema. -/
theorem ordering_text_keys_witness :
    getSpecialOrdering (some demoModel) (chars "-title") = OrderKey.upperDesc (chars "title") :=
  (ordering_text_keys demoModel (chars "") (chars "-title")
    (DField.plain FieldKind.charK) rfl).2.2.1

/-- C3: when the relation walk fails at any hop (unknown field or broken
relation chain; also when no model is configured), the transformer
returns the token completely unchanged; the embedding is a total
function, every exception path of the source being caught by its `try`
and modelled by the `none` branch here. -/
theorem ordering_unresolved_token (m : List (List Char × DField)) (t t2 : List Char)
    (h : walkField m (stripNeg t).2 = none) :
    getSpecialOrdering (some m) t = OrderKey.raw t
    ∧ getSpecialOrdering none t2 = OrderKey.raw t2
    ∧ getSpecialOrdering (some demoModel) (chars "bogus__field")
        = OrderKey.raw (chars "bogus__field") := by
  refine ⟨?_, rfl, rfl⟩
  simp [getSpecialOrdering, h]

/-- Witness for the C3 theorem on the broken relation chain
`bogus__field`. -/
theorem ordering_unresolved_token_witness :
    getSpecialOrdering (some demoModel) (chars "bogus__field")
      = OrderKey.raw (chars "bogus__field") :=
  (ordering_unresolved_token demoModel (chars "bogus__field") (chars "x") rfl).1

/-- Model of the list comprehension `self.columns = [d for d in
self.base_columns]` (tables.py line 214).  Python object identity is made
explicit: the class-level list and the instance list hold indices into a
store of `Column` objects, and the comprehension builds a new list of the
SAME indices. -/
def listCopy (l : List Nat) : List Nat := l.map (fun i => i)

/-- Model of the runtime mutation `columns[i].display_name = v`: the
shared store is updated at the referenced object. -/
def mutateDisplayName (store : List Column) (i : Nat) (v : Option (List Char)) :
    List Column :=
  match store.get? i with
  | some c => store.set i { c with display_name := v }
  | none => store

/-- Model of the `headers` property (tables.py lines 312-314) over a
column-reference list: each referenced display name, in order. -/
def headersIn (store : List Column) (cols : List Nat) : List (Option (List Char)) :=
  cols.map (fun i => match store.get? i with
    | some c => c.display_name
    | none => none)

/-- Store holding the single class-level column `a` (display name `A`). -/
def demoStore : List Column := [mkColumnDefault (ColInput.cstr (some (chars "a")))]

/-- Class-level `base_columns` referencing that column. -/
def demoBase : List Nat := [0]

/-- C6 counterexample: mutating `display_name` through the first column of
an instance copy (`listCopy demoBase`) changes the headers observed via
the class-level list, because the comprehension copies the list but
shares the `Column` objects. -/
theorem columns_copy_cex :
    headersIn (mutateDisplayName demoStore ((listCopy demoBase).headD 0) (some (chars "X")))
        demoBase
      ≠ headersIn demoStore demoBase := by decide

/-- C6 amended: the instance-level `columns` list is a new list holding
references to the SAME `Column` objects (a shallow copy): the instance
and the class therefore always observe identical headers, and concretely
a `display_name` mutation through the shared store is seen as `X` by the
class-level list, whose original header was `A`. -/
theorem columns_shallow_copy (base : List Nat) (store : List Column) (i : Nat)
    (v : Option (List Char)) :
    listCopy base = base
    ∧ headersIn (mutateDisplayName store i v) (listCopy base)
        = headersIn (mutateDisplayName store i v) base
    ∧ headersIn (mutateDisplayName demoStore 0 (some (chars "X"))) demoBase
        = [some (chars "X")]
    ∧ headersIn demoStore demoBase = [some (chars "A")] := by
  refine ⟨by simp [listCopy], ?_, rfl, rfl⟩
  rw [show listCopy base = base from by simp [listCopy]]

end DynTab
